import Mathlib

/-!
Verification of the rhythm-trainer scheduling and judgment engine
(`src/components/RhythmEngine.tsx`) against its specification.

The engine is embedded shallowly: times, offsets and scores are rationals,
the expected-hit queue is a list, and the stateful handlers (`scheduler`,
`handleTap`, `endGame`) become pure state-passing functions translated
line by line from the source.  JavaScript array mutation through shared
object references is modelled by indices into the queue list, and
`candidates.sort(cmp)[0]` (a stable sort followed by taking the head) is
modelled by a left fold that keeps the earliest element that is minimal
for the comparator, which is exactly the element a stable sort puts first.
-/

/-- Input lane of a note: `'left' | 'right' | 'any'` from `types.ts`. -/
inductive Hand where
  | left
  | right
  | any
deriving DecidableEq, Repr

/-- A pattern note: beat position and required hand (`NoteEvent` in `types.ts`). -/
structure NoteEvent where
  beat : ℚ
  hand : Hand
deriving DecidableEq, Repr

instance : Inhabited NoteEvent := ⟨⟨0, Hand.any⟩⟩

/-- The parts of a `Level` the engine reads: loop length in beats and the note pattern. -/
structure Level where
  loopBeats : ℚ
  pattern : List NoteEvent
deriving DecidableEq, Repr

/-- Difficulty tiers (`Difficulty` enum). -/
inductive Difficulty where
  | easy
  | medium
  | hard
deriving DecidableEq, Repr

/-- The parts of `GameConfig` the engine reads. -/
structure GameConfig where
  level : Level
  bpm : ℚ
  difficulty : Difficulty
deriving DecidableEq, Repr

/-- The four nested scoring windows in ms, `windows[0] .. windows[3]` in the source. -/
structure Windows where
  w0 : ℚ
  w1 : ℚ
  w2 : ℚ
  w3 : ℚ
deriving DecidableEq, Repr

/-- `SCORING_WINDOWS` table from `RhythmEngine.tsx`. -/
def SCORING_WINDOWS : Difficulty → Windows
  | Difficulty.easy => ⟨40, 70, 130, 200⟩
  | Difficulty.medium => ⟨25, 50, 100, 150⟩
  | Difficulty.hard => ⟨15, 30, 60, 100⟩

/-- An entry of the expected-hit queue `expectedHits.current`. -/
structure ExpectedHit where
  time : ℚ
  beat : ℚ
  hand : Hand
  processed : Bool
deriving DecidableEq, Repr

instance : Inhabited ExpectedHit := ⟨⟨0, 0, Hand.any, false⟩⟩

/-- An entry of `hitHistory.current` (`HitEvent` in `types.ts`). -/
structure HitEvent where
  offset : ℚ
  isMiss : Bool
  beat : ℚ
  timestamp : ℚ
  score : ℚ
  hand : Hand
  expectedHand : Hand
deriving DecidableEq, Repr

/-- The running session counters (`GameStats` minus the `history` field,
which the source keeps separately in `hitHistory.current` until `endGame`). -/
structure GameStats where
  totalScore : ℚ
  combo : ℕ
  maxCombo : ℕ
  perfects : ℕ
  greats : ℕ
  goods : ℕ
  misses : ℕ
  averageAccuracy : ℚ
deriving DecidableEq, Repr

/-- The zeroed stats installed by `startGame`. -/
def initStats : GameStats := ⟨0, 0, 0, 0, 0, 0, 0, 0⟩

/-- The engine state a tap judgment reads and writes: the expected-hit
queue, the session history, and the running stats. -/
structure EngineState where
  expectedHits : List ExpectedHit
  hitHistory : List HitEvent
  stats : GameStats
deriving DecidableEq, Repr

/-- The scheduler state: the note cursor `nextNoteTime`, the pattern index
`currentBeatInPattern`, and the queue it appends to. -/
structure SchedState where
  nextNoteTime : ℚ
  currentBeatInPattern : ℕ
  expectedHits : List ExpectedHit
deriving DecidableEq, Repr

/-- `scheduleNote` from the source: push the new expected hit, then keep only
entries with `hit.time > now - 0.5`. -/
def scheduleNote (queue : List ExpectedHit) (note : NoteEvent) (time now : ℚ) :
    List ExpectedHit :=
  (queue ++ [({ time := time, beat := note.beat, hand := note.hand, processed := false } : ExpectedHit)]).filter
    (fun hit => decide (hit.time > now - 1/2))

/-- The beat delta computed by the `scheduler` note loop at pattern index `idx`:
`loopBeats - currentNote.beat + nextNote.beat` on wrap-around, else
`nextNote.beat - currentNote.beat`, forced to `1` when not positive
("Safety for malformed patterns"). -/
def beatDelta (cfg : GameConfig) (idx : ℕ) : ℚ :=
  let pattern := cfg.level.pattern
  let currentNote := pattern.getD idx default
  let nextIndex := (idx + 1) % pattern.length
  let nextNote := pattern.getD nextIndex default
  let beatDiffRaw :=
    if nextIndex = 0 then cfg.level.loopBeats - currentNote.beat + nextNote.beat
    else nextNote.beat - currentNote.beat
  if beatDiffRaw ≤ 0 then 1 else beatDiffRaw

/-- One iteration of the `while (nextNoteTime.current < currentTime + SCHEDULE_AHEAD_TIME)`
loop in `scheduler`: emit the current note into the queue, and advance the
cursor by `beatDiff * beatDuration` (with `beatDuration = 60 / bpm`) and the
pattern index by one, wrapping modulo the pattern length. -/
def noteStep (cfg : GameConfig) (currentTime : ℚ) (s : SchedState) : SchedState :=
  let pattern := cfg.level.pattern
  let currentNote := pattern.getD s.currentBeatInPattern default
  let queue := scheduleNote s.expectedHits currentNote s.nextNoteTime currentTime
  { nextNoteTime := s.nextNoteTime + beatDelta cfg s.currentBeatInPattern * (60 / cfg.bpm),
    currentBeatInPattern := (s.currentBeatInPattern + 1) % pattern.length,
    expectedHits := queue }

/-- The game-note scheduling loop of one `scheduler` pass, with explicit fuel:
run `noteStep` while the cursor is inside the look-ahead horizon
`currentTime + SCHEDULE_AHEAD_TIME` (0.1 s). -/
def schedulerLoop (cfg : GameConfig) (currentTime : ℚ) : ℕ → SchedState → SchedState
  | 0, s => s
  | fuel + 1, s =>
    if s.nextNoteTime < currentTime + 1/10 then
      schedulerLoop cfg currentTime fuel (noteStep cfg currentTime s)
    else s

/-- `a.hand === inputHand || a.hand === 'any'` from the candidate comparator. -/
def handMatches (noteHand inputHand : Hand) : Bool :=
  noteHand == inputHand || noteHand == Hand.any

/-- Membership test of the candidate set in `handleTap`: unprocessed and with
`|hit.time - tapTime| * 1000 < maxWindow` for the difficulty's widest window. -/
def isCandidate (d : Difficulty) (tapTime : ℚ) (hit : ExpectedHit) : Bool :=
  !hit.processed && decide (|hit.time - tapTime| * 1000 < (SCORING_WINDOWS d).w3)

/-- The sort comparator of `handleTap`, as the strict relation
"`a` sorts strictly before `b`" (`compare(a, b) < 0`): hand-match priority
first, then smaller absolute time difference. -/
def comparatorLt (inputHand : Hand) (tapTime : ℚ) (a b : ExpectedHit) : Bool :=
  let aMatch := handMatches a.hand inputHand
  let bMatch := handMatches b.hand inputHand
  if aMatch && !bMatch then true
  else if !aMatch && bMatch then false
  else decide (|a.time - tapTime| < |b.time - tapTime|)

/-- The hand-match priority of a queue entry for a tapped hand: matching
entries rank 0, non-matching rank 1 (the comparator's primary key). -/
def matchRank (inputHand : Hand) (h : ExpectedHit) : ℕ :=
  if handMatches h.hand inputHand then 0 else 1

/-- The non-strict ordering induced by the comparator key
(hand-match priority, then absolute time difference). -/
def keyLE (inputHand : Hand) (tapTime : ℚ) (a b : ExpectedHit) : Prop :=
  matchRank inputHand a < matchRank inputHand b ∨
    (matchRank inputHand a = matchRank inputHand b ∧
      |a.time - tapTime| ≤ |b.time - tapTime|)

/-- The queue with positions attached, so that marking the selected hit
`processed` can be expressed by index (JS mutates the shared object). -/
def enumQ : ℕ → List ExpectedHit → List (ℕ × ExpectedHit)
  | _, [] => []
  | n, hit :: rest => (n, hit) :: enumQ (n + 1) rest

/-- The candidate set of a tap, each candidate paired with its queue position. -/
def candidatesOf (d : Difficulty) (tapTime : ℚ) (queue : List ExpectedHit) :
    List (ℕ × ExpectedHit) :=
  (enumQ 0 queue).filter (fun p => isCandidate d tapTime p.2)

/-- `candidates.sort(cmp)[0]` for the stable JS sort: the earliest candidate
that is minimal for the comparator, computed by a left fold that replaces the
best-so-far only on strict improvement. -/
def pickBest (inputHand : Hand) (tapTime : ℚ) :
    List (ℕ × ExpectedHit) → Option (ℕ × ExpectedHit) → Option (ℕ × ExpectedHit)
  | [], best => best
  | p :: rest, none => pickBest inputHand tapTime rest (some p)
  | p :: rest, some q =>
      pickBest inputHand tapTime rest
        (some (if comparatorLt inputHand tapTime p.2 q.2 then p else q))

/-- The queue position of `closestHit` in `handleTap`, if any candidate exists. -/
def selectIdx (d : Difficulty) (inputHand : Hand) (tapTime : ℚ)
    (queue : List ExpectedHit) : Option ℕ :=
  (pickBest inputHand tapTime (candidatesOf d tapTime queue) none).map Prod.fst

/-- `closestHit.processed = true`: set the processed flag of the queue entry
at the given position, leaving every other entry unchanged. -/
def markAt : List ExpectedHit → ℕ → List ExpectedHit
  | [], _ => []
  | hit :: rest, 0 => { hit with processed := true } :: rest
  | hit :: rest, n + 1 => hit :: markAt rest n

/-- The score/label classification of a matched tap in `handleTap`, as a
function of `diffMs`, using `Math.floor` interpolation inside each band. -/
def classify (w : Windows) (diffMs : ℚ) : ℚ × String :=
  if diffMs < w.w0 then (100, "Perfect")
  else if diffMs < w.w1 then
    ((90 : ℚ) + (⌊(w.w1 - diffMs) / (w.w1 - w.w0) * 10⌋ : ℤ), "Perfect")
  else if diffMs < w.w2 then
    ((70 : ℚ) + (⌊(w.w2 - diffMs) / (w.w2 - w.w1) * 20⌋ : ℤ), "Great")
  else ((40 : ℚ) + (⌊(w.w3 - diffMs) / (w.w3 - w.w2) * 30⌋ : ℤ), "Good")

/-- The `setStats` updater in `handleTap`, applied to the judged score. -/
def updateStats (prev : GameStats) (score : ℚ) : GameStats :=
  let newCombo : ℕ := if score > 0 then prev.combo + 1 else 0
  let totalTaps : ℕ := prev.perfects + prev.greats + prev.goods + prev.misses + 1
  let newAccuracy : ℚ :=
    (prev.averageAccuracy * ((totalTaps : ℚ) - 1) + score) / (totalTaps : ℚ)
  { totalScore := prev.totalScore + score * (1 + ((newCombo / 10 : ℕ) : ℚ) * (1 / 10)),
    combo := newCombo,
    maxCombo := max prev.maxCombo newCombo,
    perfects := prev.perfects + (if 90 ≤ score then 1 else 0),
    greats := prev.greats + (if 70 ≤ score ∧ score < 90 then 1 else 0),
    goods := prev.goods + (if 10 < score ∧ score < 70 then 1 else 0),
    misses := prev.misses + (if score ≤ 10 then 1 else 0),
    averageAccuracy := newAccuracy }

/-- The score a judgment assigns to the selected candidate at queue position
`i`: 0 on a hand mismatch ("Wrong Drum!"), else the band classification of
`diffMs = |(tapTime - hit.time) * 1000|`. -/
def tapScore (d : Difficulty) (st : EngineState) (inputHand : Hand)
    (tapTime : ℚ) (i : ℕ) : ℚ :=
  let hit := st.expectedHits.getD i default
  if handMatches hit.hand inputHand then
    (classify (SCORING_WINDOWS d) |(tapTime - hit.time) * 1000|).1
  else 0

/-- The `HitEvent` a judgment pushes for the selected candidate at queue
position `i`: signed offset `rawDiff`, miss flag on hand mismatch, the hit's
beat, session-relative timestamp, the judged score, and both hands. -/
def tapEvent (d : Difficulty) (gameStartTime : ℚ) (st : EngineState)
    (inputHand : Hand) (tapTime : ℚ) (i : ℕ) : HitEvent :=
  let hit := st.expectedHits.getD i default
  { offset := (tapTime - hit.time) * 1000,
    isMiss := !handMatches hit.hand inputHand,
    beat := hit.beat,
    timestamp := tapTime - gameStartTime,
    score := tapScore d st inputHand tapTime i,
    hand := inputHand,
    expectedHand := hit.hand }

/-- `handleTap` from the source, restricted to engine state: reject taps before
`gameStartTime`; otherwise select the best candidate, mark it processed, judge
hand and timing, push a `HitEvent` when (and only when) a candidate was
selected, and update the running stats with the judged score (0 on a stray tap). -/
def handleTap (d : Difficulty) (gameStartTime : ℚ) (st : EngineState)
    (inputHand : Hand) (tapTime : ℚ) : EngineState :=
  if tapTime < gameStartTime then st
  else
    match selectIdx d inputHand tapTime st.expectedHits with
    | none => { st with stats := updateStats st.stats 0 }
    | some i =>
        { expectedHits := markAt st.expectedHits i,
          hitHistory := st.hitHistory ++ [tapEvent d gameStartTime st inputHand tapTime i],
          stats := updateStats st.stats (tapScore d st inputHand tapTime i) }

/-- `earlyRate` from `endGame`: percentage of ALL history entries with
`offset < -15` (the filter runs over the whole history, misses included). -/
def earlyRate (history : List HitEvent) : ℚ :=
  if 0 < history.length then
    (((history.filter fun h => decide (h.offset < -15)).length : ℚ) /
        (history.length : ℚ)) * 100
  else 0

/-- `lateRate` from `endGame`: percentage of ALL history entries with `offset > 15`. -/
def lateRate (history : List HitEvent) : ℚ :=
  if 0 < history.length then
    (((history.filter fun h => decide (h.offset > 15)).length : ℚ) /
        (history.length : ℚ)) * 100
  else 0

/-- Follows the claim words of C9 (not the source): the early rate as the
percentage, among non-miss hits only, of hits with offset below -15 ms. -/
def specEarlyRate (history : List HitEvent) : ℚ :=
  let nonMiss := history.filter fun h => !h.isMiss
  if 0 < nonMiss.length then
    (((nonMiss.filter fun h => decide (h.offset < -15)).length : ℚ) /
        (nonMiss.length : ℚ)) * 100
  else 0

/-- Follows the claim words of C9 (not the source): the late rate as the
percentage, among non-miss hits only, of hits with offset above +15 ms. -/
def specLateRate (history : List HitEvent) : ℚ :=
  let nonMiss := history.filter fun h => !h.isMiss
  if 0 < nonMiss.length then
    (((nonMiss.filter fun h => decide (h.offset > 15)).length : ℚ) /
        (nonMiss.length : ℚ)) * 100
  else 0

/-- One step of the history replay described by C7: recompute the combo
(increment on nonzero score, reset otherwise) and accumulate
`score * (1 + floor(combo / 10) * 0.1)`. -/
def replayStep (s : ℕ × ℚ) (e : HitEvent) : ℕ × ℚ :=
  let c : ℕ := if e.score > 0 then s.1 + 1 else 0
  (c, s.2 + e.score * (1 + ((c / 10 : ℕ) : ℚ) * (1 / 10)))

/-- Replay a history from a fresh session: final (combo, totalScore). -/
def replay (history : List HitEvent) : ℕ × ℚ :=
  history.foldl replayStep (0, 0)

/-- The round-trip invariant of C7: replaying the recorded history reproduces
the running combo and total score. -/
def comboTotalInv (st : EngineState) : Prop :=
  replay st.hitHistory = (st.stats.combo, st.stats.totalScore)

/-- Run a sequence of taps (hand, clock time) through `handleTap`. -/
def runTaps (d : Difficulty) (gs : ℚ) : EngineState → List (Hand × ℚ) → EngineState
  | st, [] => st
  | st, (h, t) :: rest => runTaps d gs (handleTap d gs st h t) rest

/-- The per-event invariant of C10 on recorded history entries. -/
def historyEventOK (e : HitEvent) : Prop :=
  (e.isMiss = true ↔ e.score = 0) ∧
    (e.score = 0 ∨ (40 ≤ e.score ∧ e.score ≤ 100 ∧ ∃ n : ℤ, e.score = (n : ℚ)))

/-! ## Helper lemmas about the embedded operations -/

theorem mem_enumQ {q : List ExpectedHit} {n : ℕ} {p : ℕ × ExpectedHit}
    (hp : p ∈ enumQ n q) :
    n ≤ p.1 ∧ p.1 - n < q.length ∧ q.getD (p.1 - n) default = p.2 := by
  induction q generalizing n with
  | nil => simp [enumQ] at hp
  | cons a t ih =>
    rw [enumQ] at hp
    rcases List.mem_cons.mp hp with h | h
    · subst h
      simp
    · obtain ⟨h1, h2, h3⟩ := ih h
      refine ⟨by omega, ?_, ?_⟩
      · simp only [List.length_cons]
        omega
      · have he : p.1 - n = (p.1 - (n + 1)) + 1 := by omega
        rw [he, List.getD_cons_succ]
        exact h3

theorem mem_candidatesOf {d : Difficulty} {t : ℚ} {q : List ExpectedHit}
    {p : ℕ × ExpectedHit} (hp : p ∈ candidatesOf d t q) :
    p.1 < q.length ∧ q.getD p.1 default = p.2 ∧ p.2.processed = false ∧
      |p.2.time - t| * 1000 < (SCORING_WINDOWS d).w3 := by
  unfold candidatesOf at hp
  obtain ⟨hmem, hcand⟩ := List.mem_filter.mp hp
  obtain ⟨h0, h1, h2⟩ := mem_enumQ hmem
  unfold isCandidate at hcand
  simp only [Bool.and_eq_true, Bool.not_eq_true', decide_eq_true_eq] at hcand
  exact ⟨by simpa using h1, by simpa using h2, hcand.1, hcand.2⟩

theorem comparatorLt_true_iff (input : Hand) (t : ℚ) (a b : ExpectedHit) :
    comparatorLt input t a b = true ↔
      (matchRank input a < matchRank input b ∨
        (matchRank input a = matchRank input b ∧ |a.time - t| < |b.time - t|)) := by
  unfold comparatorLt matchRank
  cases hA : handMatches a.hand input <;> cases hB : handMatches b.hand input <;>
    simp [hA, hB]

theorem comparatorLt_false_iff (input : Hand) (t : ℚ) (a b : ExpectedHit) :
    comparatorLt input t a b = false ↔ keyLE input t b a := by
  unfold comparatorLt keyLE matchRank
  cases hA : handMatches a.hand input <;> cases hB : handMatches b.hand input <;>
    simp [hA, hB, not_lt]

theorem keyLE_refl (input : Hand) (t : ℚ) (a : ExpectedHit) : keyLE input t a a :=
  Or.inr ⟨rfl, le_refl _⟩

theorem keyLE_trans {input : Hand} {t : ℚ} {a b c : ExpectedHit}
    (h1 : keyLE input t a b) (h2 : keyLE input t b c) : keyLE input t a c := by
  rcases h1 with h1 | ⟨h1, h1d⟩ <;> rcases h2 with h2 | ⟨h2, h2d⟩
  · exact Or.inl (h1.trans h2)
  · exact Or.inl (by omega)
  · exact Or.inl (by omega)
  · exact Or.inr ⟨by omega, h1d.trans h2d⟩

theorem keyLE_of_comparatorLt {input : Hand} {t : ℚ} {a b : ExpectedHit}
    (h : comparatorLt input t a b = true) : keyLE input t a b := by
  rcases (comparatorLt_true_iff input t a b).mp h with h | ⟨h1, h2⟩
  · exact Or.inl h
  · exact Or.inr ⟨h1, le_of_lt h2⟩

theorem pickBest_mem (input : Hand) (t : ℚ) :
    ∀ (l : List (ℕ × ExpectedHit)) (acc : Option (ℕ × ExpectedHit))
      (r : ℕ × ExpectedHit), pickBest input t l acc = some r →
      r ∈ l ∨ acc = some r := by
  intro l
  induction l with
  | nil =>
    intro acc r h
    simp only [pickBest] at h
    exact Or.inr h
  | cons a rest ih =>
    intro acc r h
    cases acc with
    | none =>
      rw [show pickBest input t (a :: rest) none =
          pickBest input t rest (some a) from rfl] at h
      rcases ih (some a) r h with hm | hm
      · exact Or.inl (List.mem_cons_of_mem a hm)
      · simp only [Option.some.injEq] at hm
        exact Or.inl (hm ▸ List.mem_cons_self a rest)
    | some q =>
      rw [show pickBest input t (a :: rest) (some q) =
          pickBest input t rest
            (some (if comparatorLt input t a.2 q.2 then a else q)) from rfl] at h
      rcases ih _ r h with hm | hm
      · exact Or.inl (List.mem_cons_of_mem a hm)
      · simp only [Option.some.injEq] at hm
        by_cases hc : comparatorLt input t a.2 q.2 = true
        · rw [if_pos hc] at hm
          exact Or.inl (hm ▸ List.mem_cons_self a rest)
        · rw [if_neg hc] at hm
          exact Or.inr (by rw [hm])

theorem pickBest_min (input : Hand) (t : ℚ) :
    ∀ (l : List (ℕ × ExpectedHit)) (q r : ℕ × ExpectedHit),
      pickBest input t l (some q) = some r →
      keyLE input t r.2 q.2 ∧ ∀ p ∈ l, keyLE input t r.2 p.2 := by
  intro l
  induction l with
  | nil =>
    intro q r h
    simp only [pickBest, Option.some.injEq] at h
    subst h
    exact ⟨keyLE_refl input t q.2, by simp⟩
  | cons a rest ih =>
    intro q r h
    rw [show pickBest input t (a :: rest) (some q) =
        pickBest input t rest
          (some (if comparatorLt input t a.2 q.2 then a else q)) from rfl] at h
    obtain ⟨hacc, hrest⟩ := ih _ r h
    by_cases hc : comparatorLt input t a.2 q.2 = true
    · rw [if_pos hc] at hacc
      refine ⟨keyLE_trans hacc (keyLE_of_comparatorLt hc), ?_⟩
      intro p hp
      rcases List.mem_cons.mp hp with hpa | hp
      · exact hpa ▸ hacc
      · exact hrest p hp
    · rw [if_neg hc] at hacc
      have hc' : comparatorLt input t a.2 q.2 = false := by
        cases hcc : comparatorLt input t a.2 q.2
        · rfl
        · exact absurd hcc hc
      have hqa : keyLE input t q.2 a.2 := (comparatorLt_false_iff input t a.2 q.2).mp hc'
      refine ⟨hacc, ?_⟩
      intro p hp
      rcases List.mem_cons.mp hp with hpa | hp
      · exact hpa ▸ keyLE_trans hacc hqa
      · exact hrest p hp

theorem pickBest_min_none (input : Hand) (t : ℚ) (l : List (ℕ × ExpectedHit))
    (r : ℕ × ExpectedHit) (h : pickBest input t l none = some r) :
    ∀ p ∈ l, keyLE input t r.2 p.2 := by
  cases l with
  | nil => simp [pickBest] at h
  | cons a rest =>
    rw [show pickBest input t (a :: rest) none =
        pickBest input t rest (some a) from rfl] at h
    obtain ⟨hacc, hrest⟩ := pickBest_min input t rest a r h
    intro p hp
    rcases List.mem_cons.mp hp with hpa | hp
    · exact hpa ▸ hacc
    · exact hrest p hp

theorem selectIdx_spec {d : Difficulty} {input : Hand} {t : ℚ}
    {q : List ExpectedHit} {i : ℕ} (h : selectIdx d input t q = some i) :
    ∃ hit, (i, hit) ∈ candidatesOf d t q ∧
      ∀ p ∈ candidatesOf d t q, keyLE input t hit p.2 := by
  unfold selectIdx at h
  cases hpb : pickBest input t (candidatesOf d t q) none with
  | none => rw [hpb] at h; simp at h
  | some r =>
    rw [hpb] at h
    simp only [Option.map_some', Option.some.injEq] at h
    subst h
    refine ⟨r.2, ?_, ?_⟩
    · rcases pickBest_mem input t (candidatesOf d t q) none r hpb with hm | hm
      · exact hm
      · simp at hm
    · intro p hp
      exact pickBest_min_none input t _ r hpb p hp

theorem markAt_length : ∀ (q : List ExpectedHit) (i : ℕ),
    (markAt q i).length = q.length := by
  intro q
  induction q with
  | nil => intro i; rfl
  | cons a tl ih =>
    intro i
    cases i with
    | zero => rfl
    | succ n => simp [markAt, ih]

theorem markAt_getD_self : ∀ (q : List ExpectedHit) (i : ℕ), i < q.length →
    (markAt q i).getD i default = { q.getD i default with processed := true } := by
  intro q
  induction q with
  | nil => intro i h; simp at h
  | cons a tl ih =>
    intro i h
    cases i with
    | zero => rfl
    | succ n =>
      simp only [markAt, List.getD_cons_succ]
      exact ih n (by simpa using h)

theorem markAt_getD_ne : ∀ (q : List ExpectedHit) (i j : ℕ), j ≠ i →
    (markAt q i).getD j default = q.getD j default := by
  intro q
  induction q with
  | nil => intro i j h; rfl
  | cons a tl ih =>
    intro i j h
    cases i with
    | zero =>
      cases j with
      | zero => exact absurd rfl h
      | succ m => simp [markAt, List.getD_cons_succ]
    | succ n =>
      cases j with
      | zero => rfl
      | succ m =>
        simp only [markAt, List.getD_cons_succ]
        exact ih n m (by omega)

theorem mem_markAt : ∀ (q : List ExpectedHit) (i : ℕ) (h : ExpectedHit),
    h ∈ markAt q i → h ∈ q ∨ ∃ h0 ∈ q, h = { h0 with processed := true } := by
  intro q
  induction q with
  | nil => intro i h hm; simp [markAt] at hm
  | cons a tl ih =>
    intro i h hm
    cases i with
    | zero =>
      rcases List.mem_cons.mp hm with hm | hm
      · exact Or.inr ⟨a, List.mem_cons_self a tl, hm⟩
      · exact Or.inl (List.mem_cons_of_mem a hm)
    | succ n =>
      rcases List.mem_cons.mp hm with hm | hm
      · exact Or.inl (hm ▸ List.mem_cons_self a tl)
      · rcases ih n h hm with hm2 | ⟨h0, hh0, he⟩
        · exact Or.inl (List.mem_cons_of_mem a hm2)
        · exact Or.inr ⟨h0, List.mem_cons_of_mem a hh0, he⟩

/-! ## Claim theorems -/

theorem guarded_delta_pos (x : ℚ) : 0 < if x ≤ 0 then 1 else x := by
  by_cases h : x ≤ 0
  · rw [if_pos h]
    exact one_pos
  · rw [if_neg h]
    exact lt_of_not_le h

theorem beatDelta_pos (cfg : GameConfig) (idx : ℕ) : 0 < beatDelta cfg idx := by
  simp only [beatDelta]
  exact guarded_delta_pos _

/-- C1: for every positive tempo (bpm > 0) and nonempty pattern, the note
cursor `nextNoteTime` strictly increases: every emission advances it by
`beatDelta * (60 / bpm)` with `beatDelta > 0` (a non-positive computed delta
is forced to 1 beat), so a scheduler pass never stalls the cursor and any
pass that emits strictly advances it. -/
theorem C1_nextNoteTime_strictly_increases (cfg : GameConfig)
    (hbpm : 0 < cfg.bpm) (hpat : cfg.level.pattern ≠ []) :
    (∀ (s : SchedState) (ct : ℚ),
        0 < beatDelta cfg s.currentBeatInPattern ∧
        (noteStep cfg ct s).nextNoteTime =
          s.nextNoteTime + beatDelta cfg s.currentBeatInPattern * (60 / cfg.bpm) ∧
        s.nextNoteTime < (noteStep cfg ct s).nextNoteTime) ∧
    (∀ (ct : ℚ) (fuel : ℕ) (s : SchedState),
        s.nextNoteTime ≤ (schedulerLoop cfg ct fuel s).nextNoteTime) ∧
    (∀ (ct : ℚ) (fuel : ℕ) (s : SchedState),
        s.nextNoteTime < ct + 1/10 → 0 < fuel →
        s.nextNoteTime < (schedulerLoop cfg ct fuel s).nextNoteTime) := by
  have hdur : 0 < 60 / cfg.bpm := by positivity
  have hstep : ∀ (s : SchedState) (ct : ℚ),
      s.nextNoteTime < (noteStep cfg ct s).nextNoteTime := by
    intro s ct
    have hbd := beatDelta_pos cfg s.currentBeatInPattern
    have : 0 < beatDelta cfg s.currentBeatInPattern * (60 / cfg.bpm) :=
      mul_pos hbd hdur
    show s.nextNoteTime <
      s.nextNoteTime + beatDelta cfg s.currentBeatInPattern * (60 / cfg.bpm)
    linarith
  have hloop : ∀ (ct : ℚ) (fuel : ℕ) (s : SchedState),
      s.nextNoteTime ≤ (schedulerLoop cfg ct fuel s).nextNoteTime := by
    intro ct fuel
    induction fuel with
    | zero => intro s; exact le_refl _
    | succ n ihf =>
      intro s
      rw [schedulerLoop]
      split
      · exact le_trans (le_of_lt (hstep s ct)) (ihf (noteStep cfg ct s))
      · exact le_refl _
  refine ⟨fun s ct => ⟨beatDelta_pos cfg s.currentBeatInPattern, rfl, hstep s ct⟩,
    hloop, ?_⟩
  intro ct fuel s hin hfuel
  cases fuel with
  | zero => exact absurd hfuel (by omega)
  | succ n =>
    rw [schedulerLoop, if_pos hin]
    exact lt_of_lt_of_le (hstep s ct) (hloop ct n (noteStep cfg ct s))

theorem C1_nextNoteTime_strictly_increases_witness :
    ((⟨0, 0, []⟩ : SchedState).nextNoteTime <
      (noteStep ⟨⟨4, [⟨0, Hand.any⟩]⟩, 120, Difficulty.medium⟩ 0
        ⟨0, 0, []⟩).nextNoteTime) :=
  ((C1_nextNoteTime_strictly_increases ⟨⟨4, [⟨0, Hand.any⟩]⟩, 120, Difficulty.medium⟩
    (by norm_num) (by simp)).1 ⟨0, 0, []⟩ 0).2.2

/-- C6: a tap whose clock time is earlier than `gameStartTime` (count-in) is a
pure no-op on the engine state: no HitEvent, no history append, no stats
change. -/
theorem C6_count_in_tap_is_noop (d : Difficulty) (gs : ℚ) (st : EngineState)
    (inputHand : Hand) (t : ℚ) (h : t < gs) :
    handleTap d gs st inputHand t = st := by
  unfold handleTap
  rw [if_pos h]

theorem C6_count_in_tap_is_noop_witness :
    handleTap Difficulty.medium 8 ⟨[], [], initStats⟩ Hand.left 3 =
      ⟨[], [], initStats⟩ :=
  C6_count_in_tap_is_noop Difficulty.medium 8 ⟨[], [], initStats⟩ Hand.left 3
    (by norm_num)

theorem pickBest_isSome (input : Hand) (t : ℚ) :
    ∀ (l : List (ℕ × ExpectedHit)) (p : ℕ × ExpectedHit),
      ∃ r, pickBest input t l (some p) = some r := by
  intro l
  induction l with
  | nil => intro p; exact ⟨p, rfl⟩
  | cons a rest ih =>
    intro p
    exact ih (if comparatorLt input t a.2 p.2 then a else p)

/-- C2: if the candidate set has at least two entries and exactly one of them
matches the tapped hand (equal hand or `any`), that candidate is selected
regardless of time distance; and among candidates of equal hand-match
priority the selected one has minimal absolute time difference. -/
theorem C2_hand_match_priority_selection :
    (∀ (d : Difficulty) (inputHand : Hand) (t : ℚ) (q : List ExpectedHit)
        (j : ℕ) (u : ExpectedHit),
        2 ≤ (candidatesOf d t q).length →
        (candidatesOf d t q).filter (fun p => handMatches p.2.hand inputHand) =
          [(j, u)] →
        selectIdx d inputHand t q = some j) ∧
    (∀ (d : Difficulty) (inputHand : Hand) (t : ℚ) (q : List ExpectedHit) (i : ℕ),
        selectIdx d inputHand t q = some i →
        ∀ p ∈ candidatesOf d t q,
          handMatches p.2.hand inputHand =
            handMatches (q.getD i default).hand inputHand →
          |(q.getD i default).time - t| ≤ |p.2.time - t|) := by
  constructor
  · intro d inputHand t q j u hlen hfil
    have humem : (j, u) ∈ (candidatesOf d t q).filter
        (fun p => handMatches p.2.hand inputHand) := by
      rw [hfil]
      exact List.mem_singleton_self _
    obtain ⟨humem2, humatch⟩ := List.mem_filter.mp humem
    have huniq : ∀ p ∈ candidatesOf d t q,
        handMatches p.2.hand inputHand = true → p = (j, u) := by
      intro p hp hpm
      have : p ∈ (candidatesOf d t q).filter
          (fun p => handMatches p.2.hand inputHand) :=
        List.mem_filter.mpr ⟨hp, hpm⟩
      rw [hfil] at this
      exact List.mem_singleton.mp this
    cases hc : candidatesOf d t q with
    | nil =>
      rw [hc] at humem2
      exact absurd humem2 (List.not_mem_nil _)
    | cons a rest =>
      obtain ⟨r, hr⟩ := pickBest_isSome inputHand t rest a
      have hpb : pickBest inputHand t (candidatesOf d t q) none = some r := by
        rw [hc]
        exact hr
      have hrmem : r ∈ candidatesOf d t q := by
        rcases pickBest_mem inputHand t (candidatesOf d t q) none r hpb with hm | hm
        · exact hm
        · simp at hm
      have hmin := pickBest_min_none inputHand t (candidatesOf d t q) r hpb
      have hrmatch : handMatches r.2.hand inputHand = true := by
        cases hrm : handMatches r.2.hand inputHand
        · exfalso
          have hku := hmin (j, u) humem2
          have h1 : matchRank inputHand r.2 = 1 := by simp [matchRank, hrm]
          have h2 : matchRank inputHand (j, u).2 = 0 := by simp [matchRank, humatch]
          rcases hku with hk | ⟨hk, _⟩
          · rw [h1, h2] at hk
            omega
          · rw [h1, h2] at hk
            omega
        · rfl
      have hru : r = (j, u) := huniq r hrmem hrmatch
      unfold selectIdx
      rw [hpb, hru]
      rfl
  · intro d inputHand t q i hsel p hp hmatch
    obtain ⟨hit, hmem, hmin⟩ := selectIdx_spec hsel
    obtain ⟨hlt, hgd, _, _⟩ := mem_candidatesOf hmem
    rw [hgd] at hmatch ⊢
    have hranks : matchRank inputHand p.2 = matchRank inputHand hit := by
      simp only [matchRank, hmatch]
    rcases hmin p hp with hk | ⟨_, hle⟩
    · omega
    · exact hle

theorem C2_hand_match_priority_selection_witness :
    selectIdx Difficulty.medium Hand.left 1
      [⟨1.01, 0, Hand.right, false⟩, ⟨1.1, 0, Hand.left, false⟩] = some 1 :=
  C2_hand_match_priority_selection.1 Difficulty.medium Hand.left 1
    [⟨1.01, 0, Hand.right, false⟩, ⟨1.1, 0, Hand.left, false⟩] 1
    ⟨1.1, 0, Hand.left, false⟩
    (by norm_num +decide [candidatesOf, enumQ, isCandidate, SCORING_WINDOWS,
      abs_eq_max_neg, max_def])
    (by norm_num +decide [candidatesOf, enumQ, isCandidate, SCORING_WINDOWS,
      handMatches, abs_eq_max_neg, max_def])

/-- C3: the candidate set of every judgment contains only entries with
`processed = false`; a judgment that selects a candidate replaces the queue by
`markAt queue i`, which sets exactly that candidate's `processed` flag;
marking never clears a `processed` flag of any entry; and an entry whose
`processed` flag is set can never be selected again. -/
theorem C3_processed_hits_never_rematched :
    (∀ (d : Difficulty) (inputHand : Hand) (t : ℚ) (q : List ExpectedHit) (i : ℕ),
        selectIdx d inputHand t q = some i →
        i < q.length ∧ (q.getD i default).processed = false) ∧
    (∀ (d : Difficulty) (gs : ℚ) (st : EngineState) (inputHand : Hand)
        (t : ℚ) (i : ℕ),
        ¬ t < gs → selectIdx d inputHand t st.expectedHits = some i →
        (handleTap d gs st inputHand t).expectedHits = markAt st.expectedHits i ∧
        ((markAt st.expectedHits i).getD i default).processed = true) ∧
    (∀ (q : List ExpectedHit) (i j : ℕ),
        (q.getD j default).processed = true →
        ((markAt q i).getD j default).processed = true) ∧
    (∀ (d : Difficulty) (inputHand : Hand) (t : ℚ) (q : List ExpectedHit) (i : ℕ),
        (q.getD i default).processed = true →
        selectIdx d inputHand t q ≠ some i) := by
  have hsel_unproc : ∀ (d : Difficulty) (inputHand : Hand) (t : ℚ)
      (q : List ExpectedHit) (i : ℕ), selectIdx d inputHand t q = some i →
      i < q.length ∧ (q.getD i default).processed = false := by
    intro d inputHand t q i h
    obtain ⟨hit, hmem, _⟩ := selectIdx_spec h
    obtain ⟨hlt, hgd, hunproc, _⟩ := mem_candidatesOf hmem
    exact ⟨hlt, by rw [hgd]; exact hunproc⟩
  refine ⟨hsel_unproc, ?_, ?_, ?_⟩
  · intro d gs st inputHand t i hng hsel
    obtain ⟨hlt, _⟩ := hsel_unproc d inputHand t st.expectedHits i hsel
    constructor
    · unfold handleTap
      rw [if_neg hng, hsel]
    · rw [markAt_getD_self st.expectedHits i hlt]
  · intro q i j hp
    by_cases hji : j = i
    · subst hji
      by_cases hj : j < q.length
      · rw [markAt_getD_self q j hj]
      · have hd : q.getD j default = default :=
          List.getD_eq_default q default (by omega)
        rw [hd] at hp
        simp at hp
    · rw [markAt_getD_ne q i j hji]
      exact hp
  · intro d inputHand t q i hp hsel
    obtain ⟨_, hunproc⟩ := hsel_unproc d inputHand t q i hsel
    rw [hp] at hunproc
    exact Bool.noConfusion hunproc

theorem C3_processed_hits_never_rematched_witness :
    (handleTap Difficulty.medium 0 ⟨[⟨1, 0, Hand.left, false⟩], [], initStats⟩
        Hand.left 1).expectedHits =
      markAt [⟨1, 0, Hand.left, false⟩] 0 ∧
    ((markAt [⟨1, 0, Hand.left, false⟩] 0).getD 0 default).processed = true :=
  C3_processed_hits_never_rematched.2.1 Difficulty.medium 0
    ⟨[⟨1, 0, Hand.left, false⟩], [], initStats⟩ Hand.left 1 0
    (by norm_num)
    (by norm_num +decide [selectIdx, candidatesOf, enumQ, isCandidate,
      SCORING_WINDOWS, pickBest, comparatorLt, handMatches,
      abs_eq_max_neg, max_def])

theorem handleTap_reject_eq {d : Difficulty} {gs : ℚ} {st : EngineState}
    {inputHand : Hand} {t : ℚ} (hng : t < gs) :
    handleTap d gs st inputHand t = st := by
  unfold handleTap
  rw [if_pos hng]

theorem handleTap_none_eq {d : Difficulty} {gs : ℚ} {st : EngineState}
    {inputHand : Hand} {t : ℚ} (hng : ¬ t < gs)
    (hsel : selectIdx d inputHand t st.expectedHits = none) :
    handleTap d gs st inputHand t = { st with stats := updateStats st.stats 0 } := by
  unfold handleTap
  rw [if_neg hng, hsel]

theorem handleTap_some_eq {d : Difficulty} {gs : ℚ} {st : EngineState}
    {inputHand : Hand} {t : ℚ} {i : ℕ} (hng : ¬ t < gs)
    (hsel : selectIdx d inputHand t st.expectedHits = some i) :
    handleTap d gs st inputHand t =
      { expectedHits := markAt st.expectedHits i,
        hitHistory := st.hitHistory ++ [tapEvent d gs st inputHand t i],
        stats := updateStats st.stats (tapScore d st inputHand t i) } := by
  unfold handleTap
  rw [if_neg hng, hsel]

theorem windows_sorted (d : Difficulty) :
    0 < (SCORING_WINDOWS d).w0 ∧
    (SCORING_WINDOWS d).w0 < (SCORING_WINDOWS d).w1 ∧
    (SCORING_WINDOWS d).w1 < (SCORING_WINDOWS d).w2 ∧
    (SCORING_WINDOWS d).w2 < (SCORING_WINDOWS d).w3 := by
  cases d <;> norm_num [SCORING_WINDOWS]

theorem classify_band0 {w : Windows} {x : ℚ} (h : x < w.w0) :
    classify w x = (100, "Perfect") := by
  unfold classify
  rw [if_pos h]

theorem classify_band1 {w : Windows} {x : ℚ} (h0 : ¬ x < w.w0) (h1 : x < w.w1) :
    classify w x =
      ((90 : ℚ) + (⌊(w.w1 - x) / (w.w1 - w.w0) * 10⌋ : ℤ), "Perfect") := by
  unfold classify
  rw [if_neg h0, if_pos h1]

theorem classify_band2 {w : Windows} {x : ℚ} (h0 : ¬ x < w.w0) (h1 : ¬ x < w.w1)
    (h2 : x < w.w2) :
    classify w x =
      ((70 : ℚ) + (⌊(w.w2 - x) / (w.w2 - w.w1) * 20⌋ : ℤ), "Great") := by
  unfold classify
  rw [if_neg h0, if_neg h1, if_pos h2]

theorem classify_band3 {w : Windows} {x : ℚ} (h0 : ¬ x < w.w0) (h1 : ¬ x < w.w1)
    (h2 : ¬ x < w.w2) :
    classify w x =
      ((40 : ℚ) + (⌊(w.w3 - x) / (w.w3 - w.w2) * 30⌋ : ℤ), "Good") := by
  unfold classify
  rw [if_neg h0, if_neg h1, if_neg h2]

theorem bandScore_nonneg {a b x k : ℚ} (hab : 0 < b - a) (hxb : x < b)
    (hk : 0 ≤ k) : (0 : ℚ) ≤ ((⌊(b - x) / (b - a) * k⌋ : ℤ) : ℚ) := by
  have h1 : (0 : ℤ) ≤ ⌊(b - x) / (b - a) * k⌋ := by
    apply Int.floor_nonneg.mpr
    have h2 : 0 < b - x := by linarith
    positivity
  exact_mod_cast h1

theorem bandScore_le {a b x k : ℚ} (hab : 0 < b - a) (hax : a ≤ x) (hk : 0 ≤ k) :
    ((⌊(b - x) / (b - a) * k⌋ : ℤ) : ℚ) ≤ k := by
  have h1 : (b - x) / (b - a) ≤ 1 := by
    rw [div_le_one hab]
    linarith
  calc ((⌊(b - x) / (b - a) * k⌋ : ℤ) : ℚ) ≤ (b - x) / (b - a) * k :=
        Int.floor_le _
    _ ≤ k := mul_le_of_le_one_left hk h1

theorem bandScore_mono {a b x y k : ℚ} (hab : 0 < b - a) (hk : 0 ≤ k)
    (hxy : x ≤ y) :
    ((⌊(b - y) / (b - a) * k⌋ : ℤ) : ℚ) ≤ ((⌊(b - x) / (b - a) * k⌋ : ℤ) : ℚ) := by
  have h1 : (b - y) / (b - a) * k ≤ (b - x) / (b - a) * k := by
    apply mul_le_mul_of_nonneg_right _ hk
    rw [div_le_div_iff_of_pos_right hab]
    linarith
  exact_mod_cast Int.floor_mono h1

theorem classify_fst_B1 {w : Windows} (h01 : w.w0 < w.w1) {x : ℚ}
    (h0 : w.w0 ≤ x) (h1 : x < w.w1) :
    90 ≤ (classify w x).1 ∧ (classify w x).1 ≤ 100 := by
  rw [classify_band1 (not_lt.mpr h0) h1]
  have hab : 0 < w.w1 - w.w0 := by linarith
  have hlo := bandScore_nonneg hab h1 (by norm_num : (0:ℚ) ≤ 10)
  have hhi := bandScore_le hab h0 (by norm_num : (0:ℚ) ≤ 10)
  constructor
  · show (90 : ℚ) ≤ 90 + ((⌊(w.w1 - x) / (w.w1 - w.w0) * 10⌋ : ℤ) : ℚ)
    linarith
  · show (90 : ℚ) + ((⌊(w.w1 - x) / (w.w1 - w.w0) * 10⌋ : ℤ) : ℚ) ≤ 100
    linarith

theorem classify_fst_B2 {w : Windows} (h12 : w.w1 < w.w2) {x : ℚ}
    (h0 : ¬ x < w.w0) (h1 : w.w1 ≤ x) (h2 : x < w.w2) :
    70 ≤ (classify w x).1 ∧ (classify w x).1 ≤ 90 := by
  rw [classify_band2 h0 (not_lt.mpr h1) h2]
  have hab : 0 < w.w2 - w.w1 := by linarith
  have hlo := bandScore_nonneg hab h2 (by norm_num : (0:ℚ) ≤ 20)
  have hhi := bandScore_le hab h1 (by norm_num : (0:ℚ) ≤ 20)
  constructor
  · show (70 : ℚ) ≤ 70 + ((⌊(w.w2 - x) / (w.w2 - w.w1) * 20⌋ : ℤ) : ℚ)
    linarith
  · show (70 : ℚ) + ((⌊(w.w2 - x) / (w.w2 - w.w1) * 20⌋ : ℤ) : ℚ) ≤ 90
    linarith

theorem classify_fst_B3 {w : Windows} (h23 : w.w2 < w.w3) {x : ℚ}
    (h0 : ¬ x < w.w0) (h1 : ¬ x < w.w1) (h2 : w.w2 ≤ x) (h3 : x < w.w3) :
    40 ≤ (classify w x).1 ∧ (classify w x).1 ≤ 70 := by
  rw [classify_band3 h0 h1 (not_lt.mpr h2)]
  have hab : 0 < w.w3 - w.w2 := by linarith
  have hlo := bandScore_nonneg hab h3 (by norm_num : (0:ℚ) ≤ 30)
  have hhi := bandScore_le hab h2 (by norm_num : (0:ℚ) ≤ 30)
  constructor
  · show (40 : ℚ) ≤ 40 + ((⌊(w.w3 - x) / (w.w3 - w.w2) * 30⌋ : ℤ) : ℚ)
    linarith
  · show (40 : ℚ) + ((⌊(w.w3 - x) / (w.w3 - w.w2) * 30⌋ : ℤ) : ℚ) ≤ 70
    linarith

theorem classify_fst_ge_40_le_100 {w : Windows} (h01 : w.w0 < w.w1)
    (h12 : w.w1 < w.w2) (h23 : w.w2 < w.w3) {x : ℚ} (hx : x < w.w3) :
    40 ≤ (classify w x).1 ∧ (classify w x).1 ≤ 100 := by
  rcases lt_or_le x w.w0 with h0 | h0
  · rw [classify_band0 h0]
    norm_num
  · rcases lt_or_le x w.w1 with h1 | h1
    · obtain ⟨hlo, hhi⟩ := classify_fst_B1 h01 h0 h1
      exact ⟨by linarith, hhi⟩
    · rcases lt_or_le x w.w2 with h2 | h2
      · obtain ⟨hlo, hhi⟩ := classify_fst_B2 h12 (not_lt.mpr (by linarith)) h1 h2
        exact ⟨by linarith, by linarith⟩
      · obtain ⟨hlo, hhi⟩ := classify_fst_B3 h23 (not_lt.mpr (by linarith))
          (not_lt.mpr h1) h2 hx
        exact ⟨hlo, by linarith⟩

theorem classify_fst_le_90_of_ge_w1 {w : Windows} (h01 : w.w0 < w.w1)
    (h12 : w.w1 < w.w2) (h23 : w.w2 < w.w3) {y : ℚ} (h1 : w.w1 ≤ y)
    (hy : y < w.w3) : (classify w y).1 ≤ 90 := by
  rcases lt_or_le y w.w2 with h2 | h2
  · exact (classify_fst_B2 h12 (not_lt.mpr (by linarith)) h1 h2).2
  · have := (classify_fst_B3 h23 (not_lt.mpr (by linarith)) (not_lt.mpr h1) h2 hy).2
    linarith

theorem classify_fst_mono {w : Windows} (h01 : w.w0 < w.w1) (h12 : w.w1 < w.w2)
    (h23 : w.w2 < w.w3) {x y : ℚ} (hxy : x ≤ y) (hy : y < w.w3) :
    (classify w y).1 ≤ (classify w x).1 := by
  rcases lt_or_le x w.w0 with hx0 | hx0
  · rw [classify_band0 hx0]
    exact (classify_fst_ge_40_le_100 h01 h12 h23 hy).2
  · rcases lt_or_le x w.w1 with hx1 | hx1
    · rcases lt_or_le y w.w1 with hy1 | hy1
      · rw [classify_band1 (not_lt.mpr hx0) hx1,
          classify_band1 (not_lt.mpr (by linarith : w.w0 ≤ y)) hy1]
        have hab : 0 < w.w1 - w.w0 := by linarith
        have := bandScore_mono hab (by norm_num : (0:ℚ) ≤ 10) hxy
        show (90 : ℚ) + _ ≤ 90 + _
        linarith
      · have hup := classify_fst_le_90_of_ge_w1 h01 h12 h23 hy1 hy
        have hlo := (classify_fst_B1 h01 hx0 hx1).1
        linarith
    · rcases lt_or_le x w.w2 with hx2 | hx2
      · rcases lt_or_le y w.w2 with hy2 | hy2
        · rw [classify_band2 (not_lt.mpr (by linarith)) (not_lt.mpr hx1) hx2,
            classify_band2 (not_lt.mpr (by linarith : w.w0 ≤ y))
              (not_lt.mpr (by linarith : w.w1 ≤ y)) hy2]
          have hab : 0 < w.w2 - w.w1 := by linarith
          have := bandScore_mono hab (by norm_num : (0:ℚ) ≤ 20) hxy
          show (70 : ℚ) + _ ≤ 70 + _
          linarith
        · have hup := (classify_fst_B3 h23 (not_lt.mpr (by linarith))
            (not_lt.mpr (by linarith)) hy2 hy).2
          have hlo := (classify_fst_B2 h12 (not_lt.mpr (by linarith)) hx1 hx2).1
          linarith
      · rw [classify_band3 (not_lt.mpr (by linarith)) (not_lt.mpr hx1)
            (not_lt.mpr hx2),
          classify_band3 (not_lt.mpr (by linarith : w.w0 ≤ y))
            (not_lt.mpr (by linarith : w.w1 ≤ y)) (not_lt.mpr (by linarith : w.w2 ≤ y))]
        have hab : 0 < w.w3 - w.w2 := by linarith
        have := bandScore_mono hab (by norm_num : (0:ℚ) ≤ 30) hxy
        show (40 : ℚ) + _ ≤ 40 + _
        linarith

theorem classify_fst_int (w : Windows) (x : ℚ) :
    ∃ n : ℤ, (classify w x).1 = (n : ℚ) := by
  unfold classify
  rcases lt_or_le x w.w0 with h0 | h0
  · rw [if_pos h0]
    exact ⟨100, by norm_num⟩
  · rw [if_neg (not_lt.mpr h0)]
    rcases lt_or_le x w.w1 with h1 | h1
    · rw [if_pos h1]
      refine ⟨90 + ⌊(w.w1 - x) / (w.w1 - w.w0) * 10⌋, ?_⟩
      push_cast
      ring
    · rw [if_neg (not_lt.mpr h1)]
      rcases lt_or_le x w.w2 with h2 | h2
      · rw [if_pos h2]
        refine ⟨70 + ⌊(w.w2 - x) / (w.w2 - w.w1) * 20⌋, ?_⟩
        push_cast
        ring
      · rw [if_neg (not_lt.mpr h2)]
        refine ⟨40 + ⌊(w.w3 - x) / (w.w3 - w.w2) * 30⌋, ?_⟩
        push_cast
        ring

theorem classify_label_bounds {w : Windows} (h01 : w.w0 < w.w1)
    (h12 : w.w1 < w.w2) (h23 : w.w2 < w.w3) {x : ℚ} (hx : x < w.w3) :
    ((classify w x).2 = "Perfect" →
      90 ≤ (classify w x).1 ∧ (classify w x).1 ≤ 100) ∧
    ((classify w x).2 = "Great" →
      70 ≤ (classify w x).1 ∧ (classify w x).1 ≤ 90) ∧
    ((classify w x).2 = "Good" →
      40 ≤ (classify w x).1 ∧ (classify w x).1 ≤ 70) := by
  rcases lt_or_le x w.w0 with h0 | h0
  · have hc := classify_band0 (w := w) h0
    rw [hc]
    refine ⟨fun _ => by norm_num, fun hl => ?_, fun hl => ?_⟩
    · exact absurd hl (by decide)
    · exact absurd hl (by decide)
  · rcases lt_or_le x w.w1 with h1 | h1
    · have hl : (classify w x).2 = "Perfect" := by
        rw [classify_band1 (not_lt.mpr h0) h1]
      refine ⟨fun _ => classify_fst_B1 h01 h0 h1, fun hG => ?_, fun hG => ?_⟩
      · rw [hl] at hG
        exact absurd hG (by decide)
      · rw [hl] at hG
        exact absurd hG (by decide)
    · rcases lt_or_le x w.w2 with h2 | h2
      · have hl : (classify w x).2 = "Great" := by
          rw [classify_band2 (not_lt.mpr (by linarith)) (not_lt.mpr h1) h2]
        refine ⟨fun hP => ?_, fun _ =>
          classify_fst_B2 h12 (not_lt.mpr (by linarith)) h1 h2, fun hG => ?_⟩
        · rw [hl] at hP
          exact absurd hP (by decide)
        · rw [hl] at hG
          exact absurd hG (by decide)
      · have hl : (classify w x).2 = "Good" := by
          rw [classify_band3 (not_lt.mpr (by linarith)) (not_lt.mpr h1)
            (not_lt.mpr h2)]
        refine ⟨fun hP => ?_, fun hG => ?_, fun _ =>
          classify_fst_B3 h23 (not_lt.mpr (by linarith)) (not_lt.mpr h1) h2 hx⟩
        · rw [hl] at hP
          exact absurd hP (by decide)
        · rw [hl] at hG
          exact absurd hG (by decide)

/-- C5 counterexample: on Medium difficulty a matched tap with `diffMs`
exactly 50 ms (the lower edge of the "Great" band) is labeled "Great" with
score 90, outside the claimed 70 - 89 range for that label. -/
theorem C5_counterexample :
    classify (SCORING_WINDOWS Difficulty.medium) 50 = (90, "Great") ∧
    ¬ (classify (SCORING_WINDOWS Difficulty.medium) 50).1 ≤ 89 := by
  constructor
  · norm_num [classify, SCORING_WINDOWS]
  · norm_num [classify, SCORING_WINDOWS]

/-- C5 (amended): the matched-tap score is monotonically non-increasing in
`diffMs` on `[0, w3)`; the band floors hold with closed upper edges — label
"Perfect" has score in [90, 100], "Great" in [70, 90] (the value 90 is
attained exactly at `diffMs = w1`), "Good" in [40, 70]; and on Medium
difficulty a tap 120 ms from its note is classified "Good" with score 58,
inside [40, 70). -/
theorem C5_score_bands_amended :
    (∀ (d : Difficulty) (x y : ℚ), x ≤ y → y < (SCORING_WINDOWS d).w3 →
        (classify (SCORING_WINDOWS d) y).1 ≤ (classify (SCORING_WINDOWS d) x).1) ∧
    (∀ (d : Difficulty) (x : ℚ), x < (SCORING_WINDOWS d).w3 →
        (((classify (SCORING_WINDOWS d) x).2 = "Perfect" →
            90 ≤ (classify (SCORING_WINDOWS d) x).1 ∧
              (classify (SCORING_WINDOWS d) x).1 ≤ 100) ∧
         ((classify (SCORING_WINDOWS d) x).2 = "Great" →
            70 ≤ (classify (SCORING_WINDOWS d) x).1 ∧
              (classify (SCORING_WINDOWS d) x).1 ≤ 90) ∧
         ((classify (SCORING_WINDOWS d) x).2 = "Good" →
            40 ≤ (classify (SCORING_WINDOWS d) x).1 ∧
              (classify (SCORING_WINDOWS d) x).1 ≤ 70))) ∧
    (classify (SCORING_WINDOWS Difficulty.medium) 120 = (58, "Good") ∧
      (40 : ℚ) ≤ 58 ∧ (58 : ℚ) < 70) := by
  refine ⟨?_, ?_, ?_⟩
  · intro d x y hxy hy
    obtain ⟨_, h01, h12, h23⟩ := windows_sorted d
    exact classify_fst_mono h01 h12 h23 hxy hy
  · intro d x hx
    obtain ⟨_, h01, h12, h23⟩ := windows_sorted d
    exact classify_label_bounds h01 h12 h23 hx
  · refine ⟨?_, by norm_num, by norm_num⟩
    norm_num [classify, SCORING_WINDOWS]

theorem C5_score_bands_amended_witness :
    (classify (SCORING_WINDOWS Difficulty.medium) 130).1 ≤
      (classify (SCORING_WINDOWS Difficulty.medium) 120).1 :=
  C5_score_bands_amended.1 Difficulty.medium 120 130 (by norm_num)
    (by norm_num [SCORING_WINDOWS])

/-- C10: every `HitEvent` a judgment appends to the history satisfies
`isMiss = true` exactly when `score = 0`, and the score is either 0
(wrong-hand miss) or an integer in [40, 100] (matched hit); no entry carries
a score strictly between 0 and 40. -/
theorem C10_history_event_invariant (d : Difficulty) (gs : ℚ)
    (st : EngineState) (inputHand : Hand) (t : ℚ) :
    ∀ e ∈ (handleTap d gs st inputHand t).hitHistory,
      e ∈ st.hitHistory ∨ historyEventOK e := by
  intro e he
  by_cases hng : t < gs
  · rw [handleTap_reject_eq hng] at he
    exact Or.inl he
  · cases hsel : selectIdx d inputHand t st.expectedHits with
    | none =>
      rw [handleTap_none_eq hng hsel] at he
      exact Or.inl he
    | some i =>
      rw [handleTap_some_eq hng hsel] at he
      rcases List.mem_append.mp he with he2 | he2
      · exact Or.inl he2
      · right
        have he3 := List.mem_singleton.mp he2
        subst he3
        obtain ⟨hit, hmem, _⟩ := selectIdx_spec hsel
        obtain ⟨hlt, hgd, _, hwin⟩ := mem_candidatesOf hmem
        obtain ⟨_, h01, h12, h23⟩ := windows_sorted d
        unfold historyEventOK tapEvent tapScore
        cases hm : handMatches (st.expectedHits.getD i default).hand inputHand with
        | false =>
          simp only [hm, if_false, Bool.not_false]
          exact ⟨by simp, Or.inl rfl⟩
        | true =>
          simp only [hm, if_true, Bool.not_true]
          have hdm : |(t - (st.expectedHits.getD i default).time) * 1000| =
              |(st.expectedHits.getD i default).time - t| * 1000 := by
            rw [abs_mul, abs_sub_comm]
            norm_num
          rw [hdm]
          have hgd2 : st.expectedHits.getD i default = hit := hgd
          rw [hgd2]
          have hwin2 : |hit.time - t| * 1000 < (SCORING_WINDOWS d).w3 := hwin
          obtain ⟨h40, h100⟩ := classify_fst_ge_40_le_100 h01 h12 h23 hwin2
          obtain ⟨n, hn⟩ := classify_fst_int (SCORING_WINDOWS d) (|hit.time - t| * 1000)
          constructor
          · constructor
            · intro hfalse
              exact absurd hfalse (by simp)
            · intro h0
              rw [h0] at h40
              linarith
          · exact Or.inr ⟨h40, h100, n, hn⟩

theorem C10_history_event_invariant_witness :
    ({ offset := -100, isMiss := false, beat := 0, timestamp := 1, score := 70,
       hand := Hand.left, expectedHand := Hand.left } : HitEvent) ∈
      ([] : List HitEvent) ∨
    historyEventOK
      { offset := -100, isMiss := false, beat := 0, timestamp := 1, score := 70,
        hand := Hand.left, expectedHand := Hand.left } :=
  C10_history_event_invariant Difficulty.medium 0
    ⟨[⟨1.01, 0, Hand.right, false⟩, ⟨1.1, 0, Hand.left, false⟩], [], initStats⟩
    Hand.left 1
    { offset := -100, isMiss := false, beat := 0, timestamp := 1, score := 70,
      hand := Hand.left, expectedHand := Hand.left }
    (by norm_num +decide [handleTap, selectIdx, candidatesOf, enumQ, isCandidate,
      SCORING_WINDOWS, pickBest, comparatorLt, handMatches, markAt, classify,
      updateStats, initStats, tapEvent, tapScore, abs_eq_max_neg, max_def])

/-- C4 counterexample: a stray tap during active play (empty queue, tap at
t = 1 ≥ gameStartTime = 0) is judged — the session stats record a miss — but
no HitEvent is appended to the history, because the source pushes to history
only under `if (closestHit)`. -/
theorem C4_counterexample :
    (handleTap Difficulty.medium 0 ⟨[], [], initStats⟩ Hand.left 1).hitHistory =
      [] ∧
    (handleTap Difficulty.medium 0 ⟨[], [], initStats⟩ Hand.left 1).stats.misses =
      1 := by
  constructor <;>
    norm_num +decide [handleTap, selectIdx, candidatesOf, enumQ, isCandidate,
      SCORING_WINDOWS, pickBest, updateStats, initStats]

/-- C4 (amended): a judged tap appends a HitEvent exactly when a candidate is
selected: count-in taps leave the state unchanged; taps matched to a candidate
(including wrong-hand misses) append exactly one HitEvent; stray taps append
nothing to the history but still update the session stats with a zero score —
the miss counter increments, the combo resets, and the total score is
unchanged. -/
theorem C4_history_append_amended (d : Difficulty) (gs : ℚ) (st : EngineState)
    (inputHand : Hand) (t : ℚ) :
    (t < gs → handleTap d gs st inputHand t = st) ∧
    (¬ t < gs → ∀ i, selectIdx d inputHand t st.expectedHits = some i →
        (handleTap d gs st inputHand t).hitHistory =
          st.hitHistory ++ [tapEvent d gs st inputHand t i]) ∧
    (¬ t < gs → selectIdx d inputHand t st.expectedHits = none →
        (handleTap d gs st inputHand t).hitHistory = st.hitHistory ∧
        (handleTap d gs st inputHand t).stats.misses = st.stats.misses + 1 ∧
        (handleTap d gs st inputHand t).stats.combo = 0 ∧
        (handleTap d gs st inputHand t).stats.totalScore =
          st.stats.totalScore) := by
  refine ⟨fun h => handleTap_reject_eq h, ?_, ?_⟩
  · intro hng i hsel
    rw [handleTap_some_eq hng hsel]
  · intro hng hsel
    rw [handleTap_none_eq hng hsel]
    refine ⟨rfl, ?_, ?_, ?_⟩
    · show st.stats.misses + (if (0 : ℚ) ≤ 10 then 1 else 0) = st.stats.misses + 1
      norm_num
    · show (if (0 : ℚ) > 0 then st.stats.combo + 1 else 0) = 0
      norm_num
    · show st.stats.totalScore + 0 * _ = st.stats.totalScore
      ring

theorem C4_history_append_amended_witness :
    (handleTap Difficulty.medium 0 ⟨[⟨1, 0, Hand.any, false⟩], [], initStats⟩
        Hand.left 1).hitHistory =
      [] ++ [tapEvent Difficulty.medium 0
        ⟨[⟨1, 0, Hand.any, false⟩], [], initStats⟩ Hand.left 1 0] :=
  (C4_history_append_amended Difficulty.medium 0
    ⟨[⟨1, 0, Hand.any, false⟩], [], initStats⟩ Hand.left 1).2.1
    (by norm_num) 0
    (by norm_num +decide [selectIdx, candidatesOf, enumQ, isCandidate,
      SCORING_WINDOWS, pickBest, comparatorLt, handMatches,
      abs_eq_max_neg, max_def])

/-- C8 counterexample: judgment does not drop stale queue entries. A hit
scheduled at time 0 is 10 s older than the tap at clock time 10 — far beyond
the 0.5 s retention window — yet after `handleTap` it is still in the queue,
contradicting "dropped during both scheduling and judgment". -/
theorem C8_counterexample :
    (handleTap Difficulty.medium 0 ⟨[⟨0, 0, Hand.any, false⟩], [], initStats⟩
        Hand.left 10).expectedHits = [⟨0, 0, Hand.any, false⟩] := by
  norm_num +decide [handleTap, selectIdx, candidatesOf, enumQ, isCandidate,
    SCORING_WINDOWS, pickBest, updateStats, initStats, abs_eq_max_neg, max_def]

/-- C8 (amended): retention filtering happens only during scheduling — each
`scheduleNote` appends one entry and keeps only entries newer than 0.5 s
behind the scheduling clock, which bounds the queue; judgment never adds or
removes queue entries, it can only set a processed flag: the queue after a
judgment has the same length, and every entry keeps its time, beat and hand. -/
theorem C8_queue_retention_amended :
    (∀ (queue : List ExpectedHit) (note : NoteEvent) (time now : ℚ),
        (∀ h ∈ scheduleNote queue note time now, now - 1/2 < h.time) ∧
        (scheduleNote queue note time now).length ≤ queue.length + 1) ∧
    (∀ (d : Difficulty) (gs : ℚ) (st : EngineState) (inputHand : Hand) (t : ℚ),
        (handleTap d gs st inputHand t).expectedHits.length =
          st.expectedHits.length ∧
        ∀ h ∈ (handleTap d gs st inputHand t).expectedHits,
          ∃ h0 ∈ st.expectedHits,
            h.time = h0.time ∧ h.beat = h0.beat ∧ h.hand = h0.hand) := by
  constructor
  · intro queue note time now
    constructor
    · intro h hm
      unfold scheduleNote at hm
      have h2 := (List.mem_filter.mp hm).2
      simpa using h2
    · unfold scheduleNote
      calc (List.filter _ _).length ≤ (queue ++ [_]).length :=
            List.length_filter_le _ _
        _ = queue.length + 1 := by simp
  · intro d gs st inputHand t
    by_cases hng : t < gs
    · rw [handleTap_reject_eq hng]
      exact ⟨rfl, fun h hm => ⟨h, hm, rfl, rfl, rfl⟩⟩
    · cases hsel : selectIdx d inputHand t st.expectedHits with
      | none =>
        rw [handleTap_none_eq hng hsel]
        exact ⟨rfl, fun h hm => ⟨h, hm, rfl, rfl, rfl⟩⟩
      | some i =>
        rw [handleTap_some_eq hng hsel]
        refine ⟨markAt_length st.expectedHits i, ?_⟩
        intro h hm
        rcases mem_markAt st.expectedHits i h hm with hm2 | ⟨h0, hh0, he⟩
        · exact ⟨h, hm2, rfl, rfl, rfl⟩
        · exact ⟨h0, hh0, by rw [he], by rw [he], by rw [he]⟩

theorem C8_queue_retention_amended_witness :
    (1 : ℚ) - 1/2 <
      ({ time := 1, beat := 0, hand := Hand.any, processed := false } :
        ExpectedHit).time :=
  (C8_queue_retention_amended.1 [] ⟨0, Hand.any⟩ 1 1).1
    { time := 1, beat := 0, hand := Hand.any, processed := false }
    (by norm_num +decide [scheduleNote, List.filter])

/-- C9 counterexample: the source computes earlyRate over ALL history events,
misses included. For a history with one on-time non-miss hit and one miss at
offset -20 ms, the code yields earlyRate = 50, while the claimed
non-miss-only percentage is 0. -/
theorem C9_counterexample :
    earlyRate
        [{ offset := 0, isMiss := false, beat := 0, timestamp := 0, score := 100,
           hand := Hand.left, expectedHand := Hand.left },
         { offset := -20, isMiss := true, beat := 0, timestamp := 1, score := 0,
           hand := Hand.left, expectedHand := Hand.right }] = 50 ∧
    specEarlyRate
        [{ offset := 0, isMiss := false, beat := 0, timestamp := 0, score := 100,
           hand := Hand.left, expectedHand := Hand.left },
         { offset := -20, isMiss := true, beat := 0, timestamp := 1, score := 0,
           hand := Hand.left, expectedHand := Hand.right }] = 0 ∧
    earlyRate
        [{ offset := 0, isMiss := false, beat := 0, timestamp := 0, score := 100,
           hand := Hand.left, expectedHand := Hand.left },
         { offset := -20, isMiss := true, beat := 0, timestamp := 1, score := 0,
           hand := Hand.left, expectedHand := Hand.right }] ≠
      specEarlyRate
        [{ offset := 0, isMiss := false, beat := 0, timestamp := 0, score := 100,
           hand := Hand.left, expectedHand := Hand.left },
         { offset := -20, isMiss := true, beat := 0, timestamp := 1, score := 0,
           hand := Hand.left, expectedHand := Hand.right }] := by
  refine ⟨?_, ?_, ?_⟩ <;>
    norm_num +decide [earlyRate, specEarlyRate, List.filter]

/-- C9 (amended): earlyRate (resp. lateRate) is the percentage among ALL
recorded history events — miss events included in numerator and denominator —
with offset below -15 ms (resp. above +15 ms); it coincides with the claimed
non-miss-only percentage exactly when the history contains no miss events. -/
theorem C9_rates_amended :
    (∀ history : List HitEvent, history ≠ [] →
        earlyRate history * (history.length : ℚ) =
          100 * ((history.countP fun h => decide (h.offset < -15)) : ℚ) ∧
        lateRate history * (history.length : ℚ) =
          100 * ((history.countP fun h => decide (h.offset > 15)) : ℚ)) ∧
    (∀ history : List HitEvent, (∀ e ∈ history, e.isMiss = false) →
        earlyRate history = specEarlyRate history ∧
        lateRate history = specLateRate history) := by
  constructor
  · intro history hne
    have hlen : 0 < history.length := List.length_pos.mpr hne
    have hlq : ((history.length : ℚ)) ≠ 0 := by
      exact_mod_cast Nat.pos_iff_ne_zero.mp hlen
    constructor
    · unfold earlyRate
      rw [if_pos hlen, List.countP_eq_length_filter]
      field_simp
      ring
    · unfold lateRate
      rw [if_pos hlen, List.countP_eq_length_filter]
      field_simp
      ring
  · intro history hmiss
    have hfil : history.filter (fun h => !h.isMiss) = history := by
      apply List.filter_eq_self.mpr
      intro a ha
      rw [hmiss a ha]
      rfl
    constructor
    · unfold earlyRate specEarlyRate
      rw [hfil]
    · unfold lateRate specLateRate
      rw [hfil]

theorem C9_rates_amended_witness :
    earlyRate
        [{ offset := -20, isMiss := false, beat := 0, timestamp := 0,
           score := 100, hand := Hand.left, expectedHand := Hand.left }] =
      specEarlyRate
        [{ offset := -20, isMiss := false, beat := 0, timestamp := 0,
           score := 100, hand := Hand.left, expectedHand := Hand.left }] :=
  (C9_rates_amended.2
    [{ offset := -20, isMiss := false, beat := 0, timestamp := 0,
       score := 100, hand := Hand.left, expectedHand := Hand.left }]
    (by intro e he; rw [List.mem_singleton.mp he])).1

/-- C7 (amended): replaying the history reproduces the running combo and the
total score for every session in which each judged tap selects a candidate:
the round-trip invariant holds for a fresh session and is preserved by
count-in rejects and by every judgment that selects a candidate. A stray tap
(judged during active play, but with no candidate in tolerance) resets the
combo and is not recorded in the history, which can break the round trip —
see the counterexample. -/
theorem C7_replay_roundtrip_amended :
    (∀ q : List ExpectedHit, comboTotalInv ⟨q, [], initStats⟩) ∧
    (∀ (d : Difficulty) (gs : ℚ) (st : EngineState) (inputHand : Hand) (t : ℚ),
        comboTotalInv st →
        (t < gs ∨ selectIdx d inputHand t st.expectedHits ≠ none) →
        comboTotalInv (handleTap d gs st inputHand t)) := by
  constructor
  · intro q
    unfold comboTotalInv replay initStats
    rfl
  · intro d gs st inputHand t hinv hcond
    by_cases hng : t < gs
    · rw [handleTap_reject_eq hng]
      exact hinv
    · rcases hcond with hcond | hcond
      · exact absurd hcond hng
      · cases hsel : selectIdx d inputHand t st.expectedHits with
        | none => exact absurd hsel hcond
        | some i =>
          rw [handleTap_some_eq hng hsel]
          unfold comboTotalInv at hinv ⊢
          unfold replay at hinv ⊢
          rw [List.foldl_append, hinv]
          simp only [List.foldl_cons, List.foldl_nil]
          unfold replayStep tapEvent updateStats
          rfl

theorem C7_replay_roundtrip_amended_witness :
    comboTotalInv
      (handleTap Difficulty.medium 0 ⟨[], [], initStats⟩ Hand.left (-1)) :=
  C7_replay_roundtrip_amended.2 Difficulty.medium 0 ⟨[], [], initStats⟩
    Hand.left (-1) (C7_replay_roundtrip_amended.1 [])
    (Or.inl (by norm_num))

/-- C7 counterexample: a session of ten perfectly timed taps with a stray tap
in between (at t = 5.5, no note within tolerance). The stray tap resets the
combo but leaves no history entry, so replaying the history counts an
uninterrupted combo of 10 and applies the 1.1 bonus multiplier to the tenth
hit: the replayed sum is 1010 while the session's totalScore is 1000. -/
theorem C7_counterexample :
    (replay (runTaps Difficulty.medium 0
        ⟨[⟨1, 0, Hand.any, false⟩, ⟨2, 0, Hand.any, false⟩, ⟨3, 0, Hand.any, false⟩,
          ⟨4, 0, Hand.any, false⟩, ⟨5, 0, Hand.any, false⟩, ⟨6, 0, Hand.any, false⟩,
          ⟨7, 0, Hand.any, false⟩, ⟨8, 0, Hand.any, false⟩, ⟨9, 0, Hand.any, false⟩,
          ⟨10, 0, Hand.any, false⟩], [], initStats⟩
        [(Hand.left, 1), (Hand.left, 2), (Hand.left, 3), (Hand.left, 4),
         (Hand.left, 5), (Hand.left, 11/2), (Hand.left, 6), (Hand.left, 7),
         (Hand.left, 8), (Hand.left, 9), (Hand.left, 10)]).hitHistory).2 = 1010 ∧
    (runTaps Difficulty.medium 0
        ⟨[⟨1, 0, Hand.any, false⟩, ⟨2, 0, Hand.any, false⟩, ⟨3, 0, Hand.any, false⟩,
          ⟨4, 0, Hand.any, false⟩, ⟨5, 0, Hand.any, false⟩, ⟨6, 0, Hand.any, false⟩,
          ⟨7, 0, Hand.any, false⟩, ⟨8, 0, Hand.any, false⟩, ⟨9, 0, Hand.any, false⟩,
          ⟨10, 0, Hand.any, false⟩], [], initStats⟩
        [(Hand.left, 1), (Hand.left, 2), (Hand.left, 3), (Hand.left, 4),
         (Hand.left, 5), (Hand.left, 11/2), (Hand.left, 6), (Hand.left, 7),
         (Hand.left, 8), (Hand.left, 9), (Hand.left, 10)]).stats.totalScore = 1000 ∧
    (replay (runTaps Difficulty.medium 0
        ⟨[⟨1, 0, Hand.any, false⟩, ⟨2, 0, Hand.any, false⟩, ⟨3, 0, Hand.any, false⟩,
          ⟨4, 0, Hand.any, false⟩, ⟨5, 0, Hand.any, false⟩, ⟨6, 0, Hand.any, false⟩,
          ⟨7, 0, Hand.any, false⟩, ⟨8, 0, Hand.any, false⟩, ⟨9, 0, Hand.any, false⟩,
          ⟨10, 0, Hand.any, false⟩], [], initStats⟩
        [(Hand.left, 1), (Hand.left, 2), (Hand.left, 3), (Hand.left, 4),
         (Hand.left, 5), (Hand.left, 11/2), (Hand.left, 6), (Hand.left, 7),
         (Hand.left, 8), (Hand.left, 9), (Hand.left, 10)]).hitHistory).2 ≠
      (runTaps Difficulty.medium 0
        ⟨[⟨1, 0, Hand.any, false⟩, ⟨2, 0, Hand.any, false⟩, ⟨3, 0, Hand.any, false⟩,
          ⟨4, 0, Hand.any, false⟩, ⟨5, 0, Hand.any, false⟩, ⟨6, 0, Hand.any, false⟩,
          ⟨7, 0, Hand.any, false⟩, ⟨8, 0, Hand.any, false⟩, ⟨9, 0, Hand.any, false⟩,
          ⟨10, 0, Hand.any, false⟩], [], initStats⟩
        [(Hand.left, 1), (Hand.left, 2), (Hand.left, 3), (Hand.left, 4),
         (Hand.left, 5), (Hand.left, 11/2), (Hand.left, 6), (Hand.left, 7),
         (Hand.left, 8), (Hand.left, 9), (Hand.left, 10)]).stats.totalScore := by
  have h1 : (replay (runTaps Difficulty.medium 0
      ⟨[⟨1, 0, Hand.any, false⟩, ⟨2, 0, Hand.any, false⟩, ⟨3, 0, Hand.any, false⟩,
        ⟨4, 0, Hand.any, false⟩, ⟨5, 0, Hand.any, false⟩, ⟨6, 0, Hand.any, false⟩,
        ⟨7, 0, Hand.any, false⟩, ⟨8, 0, Hand.any, false⟩, ⟨9, 0, Hand.any, false⟩,
        ⟨10, 0, Hand.any, false⟩], [], initStats⟩
      [(Hand.left, 1), (Hand.left, 2), (Hand.left, 3), (Hand.left, 4),
       (Hand.left, 5), (Hand.left, 11/2), (Hand.left, 6), (Hand.left, 7),
       (Hand.left, 8), (Hand.left, 9), (Hand.left, 10)]).hitHistory).2 = 1010 := by
    norm_num +decide [runTaps, handleTap, selectIdx, candidatesOf, enumQ,
      isCandidate, SCORING_WINDOWS, pickBest, comparatorLt, handMatches, markAt,
      classify, updateStats, initStats, tapEvent, tapScore, replay, replayStep,
      abs_eq_max_neg, max_def]
  have h2 : (runTaps Difficulty.medium 0
      ⟨[⟨1, 0, Hand.any, false⟩, ⟨2, 0, Hand.any, false⟩, ⟨3, 0, Hand.any, false⟩,
        ⟨4, 0, Hand.any, false⟩, ⟨5, 0, Hand.any, false⟩, ⟨6, 0, Hand.any, false⟩,
        ⟨7, 0, Hand.any, false⟩, ⟨8, 0, Hand.any, false⟩, ⟨9, 0, Hand.any, false⟩,
        ⟨10, 0, Hand.any, false⟩], [], initStats⟩
      [(Hand.left, 1), (Hand.left, 2), (Hand.left, 3), (Hand.left, 4),
       (Hand.left, 5), (Hand.left, 11/2), (Hand.left, 6), (Hand.left, 7),
       (Hand.left, 8), (Hand.left, 9), (Hand.left, 10)]).stats.totalScore = 1000 := by
    norm_num +decide [runTaps, handleTap, selectIdx, candidatesOf, enumQ,
      isCandidate, SCORING_WINDOWS, pickBest, comparatorLt, handMatches, markAt,
      classify, updateStats, initStats, tapEvent, tapScore,
      abs_eq_max_neg, max_def]
  refine ⟨h1, h2, ?_⟩
  rw [h1, h2]
  norm_num
